import Mathlib

/-!
Shallow embedding of `src/bitcointalk.py` (class `UltimateBitcointalkAnalyzer`)
together with specification-side reference definitions, and theorems settling
the claims about the crawl → extract → classify → score → persist pipeline.

Modelling conventions:
* Python floats are modelled as exact rationals (`ℚ`); no claim here depends
  on binary floating-point rounding.
* Python `int(x)` is truncation toward zero (`ratTrunc`).
* The external pieces the spec declares out of scope (live HTTP, BeautifulSoup
  HTML parsing, the Ollama service, SQLite) are injected as explicit inputs:
  a fetch result is an `Option`, the extractor output is a `Page`, the
  classification-service output is an `AnalysisResult`, and the database is an
  explicit `Store` value threaded through the functions.
* Wall-clock timestamp columns (`post_date`, `analysis_date`, `last_updated`)
  are not modelled; no claim mentions them.
-/

namespace Bitcointalk

set_option maxRecDepth 8000

attribute [local semireducible] Rat.add Rat.mul Rat.inv Rat.sub

/-- Truncation toward zero on `ℚ`, modelling Python `int()` applied to a
float (`bitcointalk.py:283`). -/
def ratTrunc (x : ℚ) : ℤ :=
  if 0 ≤ x then ((x.num.toNat / x.den : ℕ) : ℤ)
  else -(((-x).num.toNat / (-x).den : ℕ) : ℤ)

/-- Round half up to the nearest integer.  Used only by the specification-side
scoring formula, whose text says the base-plus-adjustment sum is *rounded*
to the nearest integer. -/
def roundNearest (x : ℚ) : ℤ := Int.fdiv (x + 1 / 2).num ((x + 1 / 2).den : ℤ)

/-- Numeric value of a decimal digit character. -/
def digitVal (c : Char) : ℕ := c.toNat - 48

/-- Value of a run of decimal digit characters. -/
def digitsVal (l : List Char) : ℕ := l.foldl (fun a c => 10 * a + digitVal c) 0

/-- Python `float(s)` on plain decimal strings, the only shapes the premine
field can take (`"20"`, `"20.1"`, `".5"`, `"3."`, optional sign).  Returns
`none` when `float` would raise `ValueError` (e.g. on `"unknown"` or `""`).
Exponent/infinity/whitespace forms accepted by Python do not occur here and
are modelled as failures. -/
def parseDecimal? (s : String) : Option ℚ :=
  let l0 := s.toList
  let neg : Bool :=
    match l0 with
    | c :: _ => c == '-'
    | [] => false
  let l1 : List Char :=
    match l0 with
    | c :: t => if c == '-' || c == '+' then t else l0
    | [] => []
  let ip := l1.takeWhile Char.isDigit
  let rest := l1.dropWhile Char.isDigit
  let sign : ℚ := if neg then -1 else 1
  match rest with
  | [] => if ip.isEmpty then none else some (sign * (digitsVal ip : ℚ))
  | c :: frac =>
    if c == '.' && frac.all Char.isDigit && (!ip.isEmpty || !frac.isEmpty) then
      some (sign * ((digitsVal ip : ℚ) + (digitsVal frac : ℚ) / (10 : ℚ) ^ frac.length))
    else none

/-- Python `'%' in s` (`bitcointalk.py:270`). -/
def containsPct (s : String) : Bool := s.toList.any (fun c => c == '%')

/-- Python `s.replace('%', '')` (`bitcointalk.py:272`): every `'%'`
character is removed. -/
def stripPct (s : String) : String := String.mk (s.toList.filter (fun c => c != '%'))

/-- Output of the classification service as `analyze_technical_depth` returns
it: a dictionary in which every field may be missing (`Option`), read at each
use site with a default (`dict.get`).  Numeric scores are arbitrary rationals:
nothing in `calculate_final_score` itself restricts them. -/
structure AnalysisResult where
  innovation_score : Option ℚ := none
  technical_score : Option ℚ := none
  disruptiveness_score : Option ℚ := none
  premine_analysis : Option String := none
  is_fork : Option Bool := none
  fork_base : Option String := none
  mining_algorithm : Option String := none
  consensus_mechanism : Option String := none
  unique_technical_features : Option (List String) := none
  technical_red_flags : Option (List String) := none
  technical_strengths : Option (List String) := none

/-- The premine malus block of `calculate_final_score`
(`bitcointalk.py:268-280`): when the premine string contains `'%'` and the
remaining text parses as a float, the elif chain subtracts 25 / 15 / 5 for
`>20` / `>10` / `>5`; a parse failure is swallowed by the bare `except`
(penalty skipped), as is a string with no `'%'`. -/
def premine_malus (premine_str : String) : ℚ :=
  if containsPct premine_str then
    match parseDecimal? (stripPct premine_str) with
    | some premine_pct =>
      if premine_pct > 20 then -25
      else if premine_pct > 10 then -15
      else if premine_pct > 5 then -5
      else 0
    | none => 0
  else 0

/-- `calculate_final_score` (`bitcointalk.py:243-283`): weighted base score
from the three classification scores (missing ⇒ 0), +5 whitepaper bonus,
+5 github bonus, +10 when not a fork (missing ⇒ not a fork), premine malus
on the premine string (missing ⇒ `"0%"`), then `max(0, min(100, int(total)))`
with Python `int()` truncation. -/
def calculate_final_score (analysis : AnalysisResult) (has_whitepaper has_github : Bool) : ℤ :=
  let base_score : ℚ :=
    analysis.innovation_score.getD 0 * (35 / 100) +
    analysis.technical_score.getD 0 * (30 / 100) +
    analysis.disruptiveness_score.getD 0 * (25 / 100)
  let bonuses : ℚ :=
    (if has_whitepaper then 5 else 0) +
    (if has_github then 5 else 0) +
    (if analysis.is_fork.getD false then 0 else 10) +
    premine_malus (analysis.premine_analysis.getD "0%")
  max 0 (min 100 (ratTrunc (base_score + bonuses)))

/-- Scoring formula exactly as the specification words it, for comparison
with the code: `clamp(round(base + adjustment + premine_penalty), 0, 100)`
with rounding to the nearest integer. -/
def spec_score_rounded (a : AnalysisResult) (hw hg : Bool) : ℤ :=
  let base : ℚ :=
    a.innovation_score.getD 0 * (35 / 100) +
    a.technical_score.getD 0 * (30 / 100) +
    a.disruptiveness_score.getD 0 * (25 / 100)
  let adjustment : ℚ :=
    (if hw then 5 else 0) + (if hg then 5 else 0) +
    (if a.is_fork.getD false then 0 else 10)
  let penalty : ℚ := premine_malus (a.premine_analysis.getD "0%")
  max 0 (min 100 (roundNearest (base + adjustment + penalty)))

/-- Amended specification-side formula: identical to `spec_score_rounded`
except that the sum is truncated toward zero (Python `int()`), which is what
the code actually does. -/
def spec_score_truncated (a : AnalysisResult) (hw hg : Bool) : ℤ :=
  let base : ℚ :=
    a.innovation_score.getD 0 * (35 / 100) +
    a.technical_score.getD 0 * (30 / 100) +
    a.disruptiveness_score.getD 0 * (25 / 100)
  let adjustment : ℚ :=
    (if hw then 5 else 0) + (if hg then 5 else 0) +
    (if a.is_fork.getD false then 0 else 10)
  let penalty : ℚ := premine_malus (a.premine_analysis.getD "0%")
  max 0 (min 100 (ratTrunc (base + adjustment + penalty)))

/-- Classification result whose only present field is an innovation score
of 5: the weighted sum is 1.75, plus the +10 non-fork bonus gives 11.75. -/
def aRound : AnalysisResult := { innovation_score := some 5 }

/-- C1 counterexample: at `aRound` the code truncates 11.75 to 11 while the
claimed formula rounds it to 12, so the claim as stated is false. -/
theorem C1_counterexample :
    calculate_final_score aRound false false = 11 ∧
    spec_score_rounded aRound false false = 12 ∧
    calculate_final_score aRound false false ≠ spec_score_rounded aRound false false := by
  refine ⟨by decide, by decide, by decide⟩

/-- C1 (amended): `calculate_final_score` equals the claimed formula with the
single correction that the sum base + adjustment + premine penalty is
truncated toward zero (Python `int()`), not rounded to the nearest integer,
before clamping into [0, 100]. -/
theorem C1_score_formula :
    ∀ (a : AnalysisResult) (hw hg : Bool),
      calculate_final_score a hw hg = spec_score_truncated a hw hg := by
  intro a hw hg
  have h : ∀ x y : ℚ, x = y →
      max 0 (min 100 (ratTrunc x)) = max 0 (min 100 (ratTrunc y)) := by
    intro x y hxy
    rw [hxy]
  exact h _ _ (by ring)

/-- C3 counterexample: the claim says a premine of exactly 20.0% yields
penalty 0, but the code's elif chain gives it -15 (it fails `>20` but passes
`>10`).  Likewise the claim's value at 10.0% is wrong (the code gives -5). -/
theorem C3_counterexample :
    premine_malus "20.0%" ≠ 0 ∧ premine_malus "20.0%" = -15 ∧
    premine_malus "10.0%" ≠ -15 ∧ premine_malus "10.0%" = -5 := by
  refine ⟨by decide, by decide, by decide, by decide⟩

/-- Classification used to observe the premine penalty through the scorer:
innovation 100 (base 35), a fork (no +10), no link bonuses, premine 10.0%. -/
def aC3 : AnalysisResult :=
  { innovation_score := some 100, is_fork := some true, premine_analysis := some "10.0%" }

/-- C3 (amended): with the strict comparisons `>20`, `>10`, `>5` of the elif
chain, premine 20.0% yields -15 (not -25 and not 0), 20.1% yields -25,
10.0% yields -5 (not -15), and 5.0% yields 0; through the scorer, a base of
35 with premine 10.0% comes out at 30. -/
theorem C3_boundaries :
    premine_malus "20.0%" = -15 ∧
    premine_malus "20.1%" = -25 ∧
    premine_malus "10.0%" = -5 ∧
    premine_malus "5.0%" = 0 ∧
    calculate_final_score aC3 false false = 30 := by
  refine ⟨by decide, by decide, by decide, by decide, by decide⟩

/-- C4: for every classification record (every field optional, numeric fields
arbitrary rationals) and both flags, the final score is clamped into
[0, 100].  Determinism and purity hold by construction: the embedding is a
function of exactly these three arguments, as is the Python method, which
reads no instance state. -/
theorem C4_score_range :
    ∀ (a : AnalysisResult) (hw hg : Bool),
      0 ≤ calculate_final_score a hw hg ∧ calculate_final_score a hw hg ≤ 100 := by
  intro a hw hg
  have h : ∀ t : ℤ, 0 ≤ max 0 (min 100 t) ∧ max 0 (min 100 t) ≤ 100 := by
    intro t
    exact ⟨le_max_left _ _, max_le (by norm_num) (min_le_left _ _)⟩
  exact h _

/-! ## Fetcher (`fetch_with_retry`, `bitcointalk.py:135-151`)

The retry loop is modelled over an injectable sequence of per-attempt
outcomes, recording the sleeps it performs.  An attempt either yields the
page (HTTP 200), an HTTP 429, some other HTTP status (the code only logs a
warning and retries immediately), or a transport exception (the code sleeps
one second). -/

/-- Result of one GET attempt inside `fetch_with_retry`. -/
inductive FetchOutcome where
  | ok (content : String)
  | rateLimited
  | httpError (code : ℕ)
  | exn
deriving DecidableEq

/-- Observable behaviour of one `fetch_with_retry` call: the returned value,
the sequence of sleep durations (in seconds, in order), and how many GET
attempts were made. -/
structure FetchTrace where
  result : Option String
  waits : List ℕ
  attempts : ℕ
deriving DecidableEq

/-- Loop body of `fetch_with_retry`: `attempt` is the 0-based loop index,
the second argument the number of loop iterations remaining.  A 200 returns
the text at once; a 429 sleeps `2 ^ attempt`; another status retries with no
sleep; an exception sleeps 1 second (`bitcointalk.py:137-151`). -/
def fetchAux (outcome : ℕ → FetchOutcome) : ℕ → ℕ → FetchTrace
  | _, 0 => ⟨none, [], 0⟩
  | attempt, n + 1 =>
    match outcome attempt with
    | .ok c => ⟨some c, [], 1⟩
    | .rateLimited =>
      let t := fetchAux outcome (attempt + 1) n
      ⟨t.result, 2 ^ attempt :: t.waits, t.attempts + 1⟩
    | .httpError _ =>
      let t := fetchAux outcome (attempt + 1) n
      ⟨t.result, t.waits, t.attempts + 1⟩
    | .exn =>
      let t := fetchAux outcome (attempt + 1) n
      ⟨t.result, 1 :: t.waits, t.attempts + 1⟩

/-- `fetch_with_retry(url, retries)`: the loop `for attempt in range(retries)`
starting at attempt 0; `None` once all `retries` attempts are exhausted.
The code's default is `retries = 3`. -/
def fetch_with_retry (outcome : ℕ → FetchOutcome) (retries : ℕ) : FetchTrace :=
  fetchAux outcome 0 retries

/-- Content of an attempt outcome when it is a 200, else `none`. -/
def okContent? : FetchOutcome → Option String
  | .ok c => some c
  | _ => none

/-- Whether an attempt outcome is a 200. -/
def isOk : FetchOutcome → Bool
  | .ok _ => true
  | _ => false

/-- Sleep the specification assigns to a failed attempt at a given 0-based
index: `2 ^ i` seconds for a 429, 1 second for a transport error, and no
sleep for another HTTP status. -/
def waitOf (i : ℕ) : FetchOutcome → Option ℕ
  | .rateLimited => some (2 ^ i)
  | .exn => some 1
  | _ => none

/-- Specification-side result: the content of the first 200 among the first
`retries` attempts, if any. -/
def specFirstOk (outcome : ℕ → FetchOutcome) (retries : ℕ) : Option String :=
  ((List.range retries).filterMap (fun i => okContent? (outcome i))).head?

/-- Specification-side sleep sequence: one entry per failed attempt before
the first 200 (all `retries` attempts when there is no 200), each mapped
through `waitOf`. -/
def specWaits (outcome : ℕ → FetchOutcome) (retries : ℕ) : List ℕ :=
  ((List.range retries).takeWhile (fun i => !isOk (outcome i))).filterMap
    (fun i => waitOf i (outcome i))

/-- Attempt-outcome sequence of the spec's scenario: three 429 responses,
then a 200. -/
def sc429 : ℕ → FetchOutcome := fun n => if n < 3 then .rateLimited else .ok "page"

/-- Attempt-outcome sequence in which every attempt fails with HTTP 500. -/
def scOther : ℕ → FetchOutcome := fun _ => .httpError 500

lemma fetchAux_result (outcome : ℕ → FetchOutcome) :
    ∀ (n a : ℕ), (fetchAux outcome a n).result =
      ((List.range' a n).filterMap (fun i => okContent? (outcome i))).head? := by
  intro n
  induction n with
  | zero => intro a; simp [fetchAux]
  | succ n ih =>
    intro a
    rw [List.range'_succ]
    cases h : outcome a with
    | ok c => simp [fetchAux, h, okContent?]
    | rateLimited => simpa [fetchAux, h, okContent?] using ih (a + 1)
    | httpError code => simpa [fetchAux, h, okContent?] using ih (a + 1)
    | exn => simpa [fetchAux, h, okContent?] using ih (a + 1)

lemma fetchAux_waits (outcome : ℕ → FetchOutcome) :
    ∀ (n a : ℕ), (fetchAux outcome a n).waits =
      ((List.range' a n).takeWhile (fun i => !isOk (outcome i))).filterMap
        (fun i => waitOf i (outcome i)) := by
  intro n
  induction n with
  | zero => intro a; simp [fetchAux]
  | succ n ih =>
    intro a
    rw [List.range'_succ]
    cases h : outcome a with
    | ok c => simp [fetchAux, h, isOk]
    | rateLimited => simp [fetchAux, h, isOk, waitOf, ih (a + 1)]
    | httpError code => simp [fetchAux, h, isOk, waitOf, ih (a + 1)]
    | exn => simp [fetchAux, h, isOk, waitOf, ih (a + 1)]

lemma fetchAux_attempts (outcome : ℕ → FetchOutcome) :
    ∀ (n a : ℕ), (fetchAux outcome a n).attempts ≤ n := by
  intro n
  induction n with
  | zero => intro a; simp [fetchAux]
  | succ n ih =>
    intro a
    cases h : outcome a with
    | ok c => simp [fetchAux, h]
    | rateLimited => simpa [fetchAux, h] using ih (a + 1)
    | httpError code => simpa [fetchAux, h] using ih (a + 1)
    | exn => simpa [fetchAux, h] using ih (a + 1)

/-- C5 counterexample: the claim says every non-2xx, non-429 failure is
followed by a 1-second wait, so two HTTP 500 attempts should wait `[1, 1]`;
the code sleeps only on transport exceptions and performs no wait at all
here. -/
theorem C5_counterexample :
    (fetch_with_retry scOther 2).waits ≠ [1, 1] ∧
    (fetch_with_retry scOther 2).waits = [] ∧
    (fetch_with_retry scOther 2).result = none := by
  refine ⟨by decide, by decide, by decide⟩

/-- C5 (amended): `fetch_with_retry` makes at most `retries` attempts,
returns the content of the first 200 among them (`none` when there is
none), and sleeps `2 ^ i` after a 429 at 0-based attempt `i` and 1 second
after a transport exception — but performs no sleep after another non-2xx
status, which corrects the claim.  The spec's scenario 429, 429, 429, 200
with `retries = 4` returns the page after waits of exactly 1, 2 and 4
seconds. -/
theorem C5_retry_model :
    (∀ (outcome : ℕ → FetchOutcome) (retries : ℕ),
      (fetch_with_retry outcome retries).attempts ≤ retries ∧
      (fetch_with_retry outcome retries).result = specFirstOk outcome retries ∧
      (fetch_with_retry outcome retries).waits = specWaits outcome retries)
    ∧ fetch_with_retry sc429 4 = ⟨some "page", [1, 2, 4], 4⟩ := by
  refine ⟨fun outcome retries => ⟨?_, ?_, ?_⟩, by decide⟩
  · exact fetchAux_attempts outcome retries 0
  · rw [fetch_with_retry, fetchAux_result, specFirstOk, List.range_eq_range']
  · rw [fetch_with_retry, fetchAux_waits, specWaits, List.range_eq_range']

/-! ## Classification client JSON extraction (`analyze_technical_depth`,
`bitcointalk.py:219-241`)

The code locates the substring to decode with the regex search
`\x7b.*\x7d` under DOTALL: a greedy match running from the first open brace
(provided some close brace follows it) to the last close brace anywhere in
the response text. -/

/-- The open-brace character. -/
def lbrace : Char := Char.ofNat 123

/-- The close-brace character. -/
def rbrace : Char := Char.ofNat 125

/-- Prefix of `l` ending at the last close brace of `l` (empty when `l` has
no close brace). -/
def cutLast (l : List Char) : List Char :=
  (l.reverse.dropWhile (fun c => c != rbrace)).reverse

/-- The regex search on the character list: skip to the first open brace;
if some close brace follows it, the greedy `.*` extends the match to the
last close brace of the remainder. -/
def jsonMatchAux : List Char → Option (List Char)
  | [] => none
  | c :: rest =>
    if c == lbrace then
      if rest.any (fun x => x == rbrace) then some (c :: cutLast rest) else none
    else jsonMatchAux rest

/-- The substring `json.loads` receives, i.e. `json_match.group()` at
`bitcointalk.py:226-229`, or `none` when the regex does not match. -/
def jsonMatch? (s : String) : Option String :=
  (jsonMatchAux s.toList).map String.mk

/-- Balanced-brace scan, from the specification's words: consume characters
keeping a brace depth, ending at the close brace that matches the opening
one. -/
def balancedAux : List Char → ℕ → List Char → Option (List Char)
  | [], _, _ => none
  | c :: rest, depth, acc =>
    if c == lbrace then
      balancedAux rest (depth + 1) (c :: acc)
    else if c == rbrace then
      if depth == 1 then some (c :: acc).reverse
      else balancedAux rest (depth - 1) (c :: acc)
    else balancedAux rest depth (c :: acc)

/-- The first balanced JSON-object substring, as the claim describes the
decoded span: from the first open brace to that brace's matching close
brace. -/
def firstBalanced? (s : String) : Option String :=
  (balancedAux (s.toList.dropWhile (fun c => c != lbrace)) 0 []).map String.mk

/-- Amended specification of the decoded span: drop everything after the
last close brace of the whole response, then drop everything before the
first open brace; the span is what remains (no match when that is empty,
i.e. when no open brace precedes the last close brace). -/
def specGreedy (s : String) : Option String :=
  let l := (cutLast s.toList).dropWhile (fun c => c != lbrace)
  if l.isEmpty then none else some (String.mk l)

lemma dropWhile_append_left {α : Type} (p : α → Bool) (A B : List α)
    (h : ∃ a ∈ A, p a = false) :
    (A ++ B).dropWhile p = A.dropWhile p ++ B := by
  induction A with
  | nil => simp at h
  | cons a A ih =>
    cases hpa : p a with
    | false => simp [List.dropWhile_cons, hpa]
    | true =>
      obtain ⟨x, hx, hpx⟩ := h
      rcases List.mem_cons.mp hx with hx | hx
      · rw [hx] at hpx
        rw [hpa] at hpx
        cases hpx
      · simp [List.dropWhile_cons, hpa, ih ⟨x, hx, hpx⟩]

lemma dropWhile_append_right {α : Type} (p : α → Bool) (A B : List α)
    (h : ∀ a ∈ A, p a = true) :
    (A ++ B).dropWhile p = B.dropWhile p := by
  induction A with
  | nil => simp
  | cons a A ih =>
    have ha : p a = true := h a (List.mem_cons_self a A)
    simp only [List.cons_append, List.dropWhile_cons, ha, if_true]
    exact ih (fun x hx => h x (List.mem_cons_of_mem a hx))

lemma cutLast_cons_of_any (c : Char) (rest : List Char)
    (h : rest.any (fun x => x == rbrace) = true) :
    cutLast (c :: rest) = c :: cutLast rest := by
  obtain ⟨x, hx, hbx⟩ := List.any_eq_true.mp h
  have hxr : x = rbrace := by simpa using hbx
  unfold cutLast
  rw [List.reverse_cons,
    dropWhile_append_left _ _ _ ⟨x, List.mem_reverse.mpr hx, by simp [hxr]⟩]
  simp

lemma cutLast_nil_of_none (l : List Char)
    (h : l.any (fun x => x == rbrace) = false) :
    cutLast l = [] := by
  unfold cutLast
  have hall : l.reverse.dropWhile (fun c => c != rbrace) = [] := by
    rw [List.dropWhile_eq_nil_iff]
    intro x hx
    have hne := List.any_eq_false.mp h x (List.mem_reverse.mp hx)
    simpa using hne
  rw [hall]
  rfl

lemma jsonMatchAux_eq (cs : List Char) :
    jsonMatchAux cs =
      (if ((cutLast cs).dropWhile (fun c => c != lbrace)).isEmpty then none
       else some ((cutLast cs).dropWhile (fun c => c != lbrace))) := by
  induction cs with
  | nil => simp [jsonMatchAux, cutLast]
  | cons c rest ih =>
    by_cases hc : c = lbrace
    · subst hc
      cases hany : rest.any (fun x => x == rbrace) with
      | true =>
        rw [jsonMatchAux]
        rw [cutLast_cons_of_any _ _ hany]
        have hstop : (lbrace != lbrace) = false := by simp
        simp [List.dropWhile_cons, hstop, hany]
      | false =>
        have h1 : cutLast (lbrace :: rest) = [] := by
          apply cutLast_nil_of_none
          rw [List.any_cons, hany]
          decide
        rw [jsonMatchAux]
        simp [hany, h1]
    · have hstep : jsonMatchAux (c :: rest) = jsonMatchAux rest := by
        rw [jsonMatchAux]
        simp [hc]
      have hsame : (cutLast (c :: rest)).dropWhile (fun x => x != lbrace)
          = (cutLast rest).dropWhile (fun x => x != lbrace) := by
        cases hany : rest.any (fun x => x == rbrace) with
        | true =>
          rw [cutLast_cons_of_any _ _ hany, List.dropWhile_cons]
          have hkeep : (c != lbrace) = true := by simpa using hc
          rw [hkeep]
          simp
        | false =>
          have h2 : cutLast rest = [] := cutLast_nil_of_none rest hany
          by_cases hcr : c = rbrace
          · subst hcr
            have h1 : cutLast (rbrace :: rest) = [rbrace] := by
              unfold cutLast
              rw [List.reverse_cons]
              rw [dropWhile_append_right _ _ _ (fun x hx => by
                have hne := List.any_eq_false.mp hany x (List.mem_reverse.mp hx)
                simpa using hne)]
              decide
            rw [h1, h2]
            decide
          · have h1 : cutLast (c :: rest) = [] := by
              apply cutLast_nil_of_none
              rw [List.any_cons, hany]
              simp [hcr]
            rw [h1, h2]
      rw [hstep, hsame, ih]

/-- Response with prose around two top-level JSON objects: the character
after `x` is an open brace, then `a`, close brace, ` y `, open brace, `b`,
close brace. -/
def resp2 : String := "x \x7ba\x7d y \x7bb\x7d"

/-- C6 counterexample: on a response holding two brace groups the code's
greedy regex span runs from the first open brace to the *last* close brace
(`\x7ba\x7d y \x7bb\x7d`), not the first balanced object (`\x7ba\x7d`), so
prose and further braces after the first balanced object are included and
the claim as stated is false. -/
theorem C6_counterexample :
    jsonMatch? resp2 = some "\x7ba\x7d y \x7bb\x7d" ∧
    firstBalanced? resp2 = some "\x7ba\x7d" ∧
    jsonMatch? resp2 ≠ firstBalanced? resp2 := by
  refine ⟨by decide, by decide, by decide⟩

/-- C6 (amended): the span handed to the JSON decoder is the greedy match:
it starts at the first open brace and extends to the last close brace
anywhere in the response (no match when no open brace precedes the last
close brace); everything between, including prose and further braces after
the first balanced object, is part of the decoded span. -/
theorem C6_greedy_span : ∀ s : String, jsonMatch? s = specGreedy s := by
  intro s
  rw [jsonMatch?, specGreedy, jsonMatchAux_eq]
  cases h : ((cutLast s.toList).dropWhile (fun c => c != lbrace)).isEmpty with
  | true => simp [h]
  | false => simp [h]

/-! ## Link classifier (`extract_links`, `bitcointalk.py:153-183`)

URL discovery and the three category patterns are regex searches with
`re.IGNORECASE`; they are modelled as deterministic scans over the
character list (input lower-cased through `Char.toLower` where the regex is
case-insensitive).  The per-URL categorisation is the code's if/elif chain:
github, else whitepaper keyword, else generic website shape, else other. -/

/-- Characters allowed in a URL match: the regex class excludes whitespace,
angle brackets and the double quote. -/
def urlChar (c : Char) : Bool := !c.isWhitespace && c != '<' && c != '>' && c != '\"'

/-- Strip `pat` (given lower-case) from the head of `cs` case-insensitively,
returning the consumed original characters and the remainder. -/
def stripCI : List Char → List Char → Option (List Char × List Char)
  | [], cs => some ([], cs)
  | _ :: _, [] => none
  | p :: ps, c :: cs =>
    if c.toLower == p then
      match stripCI ps cs with
      | some (m, r) => some (c :: m, r)
      | none => none
    else none

/-- Match one alternative of the URL pattern at the head of `cs`: the given
scheme prefix followed by at least one `urlChar`; returns the matched text
and the remainder. -/
def matchScheme (pat : List Char) (cs : List Char) : Option (List Char × List Char) :=
  match stripCI pat cs with
  | none => none
  | some (m, r) =>
    match r.span urlChar with
    | (run, rest) => if run.isEmpty then none else some (m ++ run, rest)

/-- One step of `re.findall` for the URL pattern
`https?://[^\s<>\"]+|www\.[^\s<>\"]+` at the current position: the
alternatives are tried in order. -/
def matchUrlAt (cs : List Char) : Option (List Char × List Char) :=
  match matchScheme ('h' :: 't' :: 't' :: 'p' :: 's' :: ':' :: '/' :: '/' :: []) cs with
  | some mr => some mr
  | none =>
    match matchScheme ('h' :: 't' :: 't' :: 'p' :: ':' :: '/' :: '/' :: []) cs with
    | some mr => some mr
    | none => matchScheme ('w' :: 'w' :: 'w' :: '.' :: []) cs

/-- Leftmost, non-overlapping `re.findall` scan; the fuel argument (always
the remaining length) makes the recursion structural. -/
def findUrlsAux : ℕ → List Char → List (List Char)
  | 0, _ => []
  | _ + 1, [] => []
  | fuel + 1, c :: rest =>
    match matchUrlAt (c :: rest) with
    | some (m, r) => m :: findUrlsAux fuel r
    | none => findUrlsAux fuel rest

/-- `found_urls` of `extract_links` (`bitcointalk.py:170-171`). -/
def findUrls (text : String) : List String :=
  (findUrlsAux text.toList.length text.toList).map String.mk

/-- Word characters of the github path pattern `[a-zA-Z0-9_-]`. -/
def ghWordChar (c : Char) : Bool := c.isAlphanum || c == '_' || c == '-'

/-- Does `github.com/<word>+/<word>+` match at the head of `cs`? -/
def githubAt (cs : List Char) : Bool :=
  match stripCI ('g' :: 'i' :: 't' :: 'h' :: 'u' :: 'b' :: '.' :: 'c' :: 'o' :: 'm' :: '/' :: []) cs with
  | none => false
  | some (_, r) =>
    match r.span ghWordChar with
    | ([], _) => false
    | (_ :: _, r1) =>
      match r1 with
      | '/' :: r2 => !(r2.takeWhile ghWordChar).isEmpty
      | _ => false

/-- Does a predicate on suffixes hold at some position of the list
(`re.search` semantics)? -/
def anyPosition (p : List Char → Bool) : List Char → Bool
  | [] => p []
  | c :: rest => p (c :: rest) || anyPosition p rest

/-- `re.search` of the github pattern
`github\.com/[a-zA-Z0-9_-]+/[a-zA-Z0-9_-]+` (`bitcointalk.py:164,174`). -/
def matchGithub (url : String) : Bool := anyPosition githubAt url.toList

/-- Does `kw` (lower-case) occur at the head of `cs`, case-insensitively? -/
def kwAt (kw : List Char) (cs : List Char) : Bool := (stripCI kw cs).isSome

/-- `re.search` of the whitepaper keyword alternation
`(whitepaper|white paper|litepaper|technical paper)`
(`bitcointalk.py:165,176`). -/
def matchWhitepaperKw (url : String) : Bool :=
  anyPosition
    (fun suf =>
      kwAt ('w' :: 'h' :: 'i' :: 't' :: 'e' :: 'p' :: 'a' :: 'p' :: 'e' :: 'r' :: []) suf ||
      kwAt ('w' :: 'h' :: 'i' :: 't' :: 'e' :: ' ' :: 'p' :: 'a' :: 'p' :: 'e' :: 'r' :: []) suf ||
      kwAt ('l' :: 'i' :: 't' :: 'e' :: 'p' :: 'a' :: 'p' :: 'e' :: 'r' :: []) suf ||
      kwAt ('t' :: 'e' :: 'c' :: 'h' :: 'n' :: 'i' :: 'c' :: 'a' :: 'l' :: ' ' :: 'p' :: 'a' :: 'p' :: 'e' :: 'r' :: []) suf)
    url.toList

/-- Host characters of the website pattern class `[a-zA-Z0-9.-]`. -/
def hostChar (c : Char) : Bool := c.isAlphanum || c == '.' || c == '-'

/-- Does the host run contain a dot at position ≥ 1 followed by at least
two letters (the `\.[a-zA-Z]{2,}` tail, with regex backtracking resolved)? -/
def hasDotTld (run : List Char) : Bool :=
  (List.range run.length).any fun i =>
    decide (1 ≤ i) && (run.getD i ' ' == '.') &&
      (run.getD (i + 1) ' ').isAlpha && (run.getD (i + 2) ' ').isAlpha

/-- Does `https?://[a-zA-Z0-9.-]+\.[a-zA-Z]{2,}` match at the head of
`cs`? -/
def websiteAt (cs : List Char) : Bool :=
  match stripCI ('h' :: 't' :: 't' :: 'p' :: 's' :: ':' :: '/' :: '/' :: []) cs with
  | some (_, r) => hasDotTld (r.takeWhile hostChar)
  | none =>
    match stripCI ('h' :: 't' :: 't' :: 'p' :: ':' :: '/' :: '/' :: []) cs with
    | some (_, r) => hasDotTld (r.takeWhile hostChar)
    | none => false

/-- `re.search` of the website pattern `https?://[a-zA-Z0-9.-]+\.[a-zA-Z]{2,}`
(`bitcointalk.py:166,178`). -/
def matchWebsite (url : String) : Bool := anyPosition websiteAt url.toList

/-- The four link buckets built by `extract_links`. -/
structure Links where
  github : List String
  whitepaper : List String
  website : List String
  other : List String
deriving DecidableEq

/-- The empty bucket dictionary (`bitcointalk.py:155-160`). -/
def emptyLinks : Links := ⟨[], [], [], []⟩

/-- Loop body of `extract_links` (`bitcointalk.py:173-181`): the if/elif
chain appends the URL to the first category whose pattern matches. -/
def classifyUrl (acc : Links) (url : String) : Links :=
  if matchGithub url then { acc with github := acc.github ++ [url] }
  else if matchWhitepaperKw url then { acc with whitepaper := acc.whitepaper ++ [url] }
  else if matchWebsite url then { acc with website := acc.website ++ [url] }
  else { acc with other := acc.other ++ [url] }

/-- `extract_links` (`bitcointalk.py:153-183`). -/
def extract_links (text : String) : Links :=
  (findUrls text).foldl classifyUrl emptyLinks

/-- The four categories. -/
inductive LinkCat where
  | github
  | whitepaper
  | website
  | other
deriving DecidableEq

/-- The fixed precedence order of the categories, as the specification
states it. -/
def catOrder : List LinkCat := [LinkCat.github, LinkCat.whitepaper, LinkCat.website, LinkCat.other]

/-- Does a category's pattern match a URL (`other` matches everything)? -/
def catMatches : LinkCat → String → Bool
  | .github, u => matchGithub u
  | .whitepaper, u => matchWhitepaperKw u
  | .website, u => matchWebsite u
  | .other, _ => true

/-- Specification-side per-URL category: the earliest category in the fixed
precedence list whose pattern matches. -/
def specCategory (u : String) : LinkCat :=
  (catOrder.filter (fun c => catMatches c u)).headD LinkCat.other

/-- Bucket of a `Links` value for a given category. -/
def catBucket (l : Links) : LinkCat → List String
  | .github => l.github
  | .whitepaper => l.whitepaper
  | .website => l.website
  | .other => l.other

lemma specCategory_eq (u : String) :
    specCategory u =
      (if matchGithub u then LinkCat.github
       else if matchWhitepaperKw u then LinkCat.whitepaper
       else if matchWebsite u then LinkCat.website
       else LinkCat.other) := by
  unfold specCategory catOrder
  cases h1 : matchGithub u <;> cases h2 : matchWhitepaperKw u <;> cases h3 : matchWebsite u <;>
    simp [List.filter, catMatches, h1, h2, h3]

lemma classify_bucket (acc : Links) (u : String) (c : LinkCat) :
    catBucket (classifyUrl acc u) c =
      catBucket acc c ++ (if specCategory u = c then [u] else []) := by
  rw [specCategory_eq]
  unfold classifyUrl
  cases h1 : matchGithub u <;> cases h2 : matchWhitepaperKw u <;> cases h3 : matchWebsite u <;>
    cases c <;> simp [catBucket]

lemma foldl_classify (urls : List String) (acc : Links) (c : LinkCat) :
    catBucket (urls.foldl classifyUrl acc) c =
      catBucket acc c ++ urls.filter (fun u => decide (specCategory u = c)) := by
  induction urls generalizing acc with
  | nil => simp
  | cons u us ih =>
    rw [List.foldl_cons, List.filter_cons, ih, classify_bucket]
    by_cases h : specCategory u = c <;> simp [h]

/-- URL of the spec's both-patterns scenario. -/
def ghUrl : String := "https://github.com/foo/bar"

/-- Body text containing that URL. -/
def ghText : String := "visit https://github.com/foo/bar now"

/-- C7: every URL found in the text is appended to exactly one bucket, the
one of the earliest matching category in the fixed order github →
whitepaper → website → other; concretely, `ghUrl` matches both the github
path pattern and the generic website pattern yet is classified `github`
and never `website`. -/
theorem C7_precedence :
    (∀ (text : String) (c : LinkCat),
      catBucket (extract_links text) c =
        (findUrls text).filter (fun u => decide (specCategory u = c)))
    ∧ matchGithub ghUrl = true ∧ matchWebsite ghUrl = true
    ∧ (extract_links ghText).github = [ghUrl] ∧ (extract_links ghText).website = [] := by
  refine ⟨?_, by decide, by decide, by decide, by decide⟩
  intro text c
  rw [extract_links, foldl_classify]
  have hempty : catBucket emptyLinks c = [] := by cases c <;> rfl
  rw [hempty, List.nil_append]

/-! ## Store and per-item pipeline
(`init_database`, `save_project`, `is_project_analyzed`,
`process_announcement`, `scan_bitcointalk_section`;
`bitcointalk.py:70-121, 285-433`)

The SQLite database is modelled as an explicit value with the two tables
`projects` and `analysis_history`.  HTML retrieval and parsing are injected:
a topic fetch yields `Option Page` (the extractor's title/author/body), and
the classification service's answer is an `AnalysisResult`.  Wall-clock
timestamp columns are not modelled. -/

/-- Extractor output for one topic page (`bitcointalk.py:296-308`). -/
structure Page where
  title : String
  author : String
  content : String

/-- The `CryptoProject` record as `process_announcement` builds it
(timestamp fields omitted; `credibility_score` and `risk_score` keep their
dataclass default 0, the code never sets them). -/
structure Project where
  topic_id : ℕ
  title : String := ""
  author : String := ""
  content : String := ""
  github_link : String := ""
  whitepaper_link : String := ""
  website_link : String := ""
  technical_score : ℚ := 0
  innovation_score : ℚ := 0
  disruptiveness_score : ℚ := 0
  credibility_score : ℚ := 0
  risk_score : ℚ := 0
  premine_percentage : ℚ := 0
  is_fork : Bool := false
  fork_base : String := ""
  mining_algorithm : String := ""
  consensus_mechanism : String := ""
  unique_features : List String := []
  red_flags : List String := []
  strengths : List String := []
  final_score : ℤ := 0

/-- One row of the `projects` table: the record plus the `is_promising`
column computed at write time (`bitcointalk.py:380`). -/
structure StoredRow where
  project : Project
  is_promising : Bool

/-- One row of the append-only `analysis_history` table
(`bitcointalk.py:108-117`). -/
structure HistoryEntry where
  topic_id : ℕ
  score : ℤ
  notes : String

/-- The database: the `projects` table (unique `topic_id`) and the
`analysis_history` table. -/
structure Store where
  projects : List StoredRow
  history : List HistoryEntry

/-- The database right after `init_database`: both tables exist and are
empty. -/
def initStore : Store := ⟨[], []⟩

/-- The row `save_project` writes: `is_promising` is recomputed from the
score being written (`project.final_score >= 75`). -/
def mkRow (p : Project) : StoredRow := ⟨p, decide (75 ≤ p.final_score)⟩

/-- `INSERT OR REPLACE` keyed by the unique `topic_id` column: the row with
the same `topic_id` is replaced in place, otherwise the row is appended. -/
def upsertRows (rows : List StoredRow) (r : StoredRow) : List StoredRow :=
  if rows.any (fun x => x.project.topic_id == r.project.topic_id) then
    rows.map (fun x => if x.project.topic_id == r.project.topic_id then r else x)
  else rows ++ [r]

/-- `save_project` (`bitcointalk.py:357-389`): one `INSERT OR REPLACE` into
`projects`; nothing is ever written to `analysis_history`. -/
def save_project (s : Store) (p : Project) : Store :=
  { s with projects := upsertRows s.projects (mkRow p) }

/-- `is_project_analyzed` (`bitcointalk.py:426-433`):
`SELECT 1 FROM projects WHERE topic_id = ?`. -/
def is_project_analyzed (s : Store) (topic_id : ℕ) : Bool :=
  s.projects.any (fun r => r.project.topic_id == topic_id)

/-- `process_announcement` (`bitcointalk.py:285-355`) for one topic, over
the injected fetch result and classification answer.  A failed fetch
returns with no write.  The record's `premine_percentage` is
`float(premine.replace('%','')) if '%' in premine else 0.0`: when the
string contains `'%'` but the float conversion fails, the `ValueError`
propagates to the enclosing `try`, is logged, and the item is dropped with
no write. -/
def process_announcement (s : Store) (topic_id : ℕ) (fetched : Option Page)
    (analysis : AnalysisResult) : Store :=
  match fetched with
  | none => s
  | some page =>
    let links := extract_links page.content
    let has_whitepaper := !links.whitepaper.isEmpty
    let has_github := !links.github.isEmpty
    let final_score := calculate_final_score analysis has_whitepaper has_github
    let premine_str := analysis.premine_analysis.getD "0%"
    let premine? : Option ℚ :=
      if containsPct premine_str then parseDecimal? (stripPct premine_str) else some 0
    match premine? with
    | none => s
    | some premine =>
      save_project s
        { topic_id := topic_id
          title := page.title
          author := page.author
          content :=
            if page.content.length > 1000 then page.content.take 1000 ++ "..."
            else page.content
          github_link := links.github.headD ""
          whitepaper_link := links.whitepaper.headD ""
          website_link := links.website.headD ""
          technical_score := analysis.technical_score.getD 0
          innovation_score := analysis.innovation_score.getD 0
          disruptiveness_score := analysis.disruptiveness_score.getD 0
          premine_percentage := premine
          is_fork := analysis.is_fork.getD false
          fork_base := analysis.fork_base.getD ""
          mining_algorithm := analysis.mining_algorithm.getD ""
          consensus_mechanism := analysis.consensus_mechanism.getD ""
          unique_features := analysis.unique_technical_features.getD []
          red_flags := analysis.technical_red_flags.getD []
          strengths := analysis.technical_strengths.getD []
          final_score := final_score }

/-- One topic discovered on a listing page, with its injected per-item
inputs (the fetch result used if the item is processed, and the
classification answer). -/
structure Topic where
  topic_id : ℕ
  fetched : Option Page
  analysis : AnalysisResult

/-- Per-topic step of `scan_bitcointalk_section` (`bitcointalk.py:414-421`):
the dedup check `if not self.is_project_analyzed(topic_id)` guards the whole
pipeline including the item fetch.  The second component traces the ids for
which `process_announcement` was invoked. -/
def scanStep (acc : Store × List ℕ) (t : Topic) : Store × List ℕ :=
  if is_project_analyzed acc.1 t.topic_id then acc
  else (process_announcement acc.1 t.topic_id t.fetched t.analysis, acc.2 ++ [t.topic_id])

/-- The topic loop of a section scan, pages flattened into one topic list
(listing pages whose fetch failed contribute no topics). -/
def scan_topics (s : Store) (ts : List Topic) : Store × List ℕ :=
  ts.foldl scanStep (s, [])

lemma any_upsert (rows : List StoredRow) (r : StoredRow) (id : ℕ)
    (h : rows.any (fun x => x.project.topic_id == id) = true) :
    (upsertRows rows r).any (fun x => x.project.topic_id == id) = true := by
  unfold upsertRows
  obtain ⟨x, hx, hbx⟩ := List.any_eq_true.mp h
  by_cases hkey : rows.any (fun y => y.project.topic_id == r.project.topic_id) = true
  · rw [if_pos hkey]
    apply List.any_eq_true.mpr
    by_cases hxr : x.project.topic_id = r.project.topic_id
    · refine ⟨r, List.mem_map.mpr ⟨x, hx, by simp [hxr]⟩, ?_⟩
      have hxid : x.project.topic_id = id := by simpa using hbx
      simp [← hxr, hxid]
    · exact ⟨x, List.mem_map.mpr ⟨x, hx, by simp [hxr]⟩, hbx⟩
  · rw [if_neg hkey]
    exact List.any_eq_true.mpr ⟨x, List.mem_append.mpr (Or.inl hx), hbx⟩

lemma analyzed_save (s : Store) (p : Project) (id : ℕ)
    (h : is_project_analyzed s id = true) :
    is_project_analyzed (save_project s p) id = true :=
  any_upsert s.projects (mkRow p) id h

lemma analyzed_process (s : Store) (tid id : ℕ) (f : Option Page) (a : AnalysisResult)
    (h : is_project_analyzed s id = true) :
    is_project_analyzed (process_announcement s tid f a) id = true := by
  unfold process_announcement
  cases f with
  | none => exact h
  | some page =>
    simp only []
    split
    · exact h
    · exact analyzed_save _ _ _ h

/-- Body text and classification used for a successfully processed item. -/
def pageEx : Page := ⟨"T", "A", "hello"⟩

/-- Classification answer of the spec's end-to-end scenario. -/
def analysisEx : AnalysisResult :=
  { innovation_score := some 80, technical_score := some 70,
    disruptiveness_score := some 60, is_fork := some false,
    premine_analysis := some "3%" }

/-- C2 counterexample: a fully successful per-item run (fetched, classified,
scored, upserted — the `projects` table gains its row) appends *zero* rows
to `analysis_history`, not exactly one as claimed. -/
theorem C2_counterexample :
    (process_announcement initStore 1 (some pageEx) analysisEx).projects.length = 1 ∧
    (process_announcement initStore 1 (some pageEx) analysisEx).history.length = 0 := by
  refine ⟨by decide, by decide⟩

/-- C2 (amended): the per-item pipeline ends at the upsert.  Neither
`process_announcement` nor `save_project` ever writes to the
`analysis_history` table: it is created at init and stays empty. -/
theorem C2_no_history :
    (∀ (s : Store) (id : ℕ) (fetched : Option Page) (a : AnalysisResult),
      (process_announcement s id fetched a).history = s.history)
    ∧ (∀ (s : Store) (p : Project), (save_project s p).history = s.history) := by
  constructor
  · intro s id fetched a
    unfold process_announcement
    cases fetched with
    | none => rfl
    | some page =>
      simp only []
      split
      · rfl
      · rfl
  · intro s p
    rfl

/-- C8: during a section scan no topic whose id is already stored is ever
processed (hence never fetched), and the skip-or-process decision for a
topic is a function of the current store and the topic's id alone. -/
theorem C8_dedup :
    (∀ (s : Store) (ts : List Topic) (id : ℕ),
      is_project_analyzed s id = true → id ∉ (scan_topics s ts).2)
    ∧ (∀ (s : Store) (l : List ℕ) (t : Topic),
      (scanStep (s, l) t).2 =
        if is_project_analyzed s t.topic_id then l else l ++ [t.topic_id]) := by
  constructor
  · intro s ts id h
    suffices H : ∀ (ts : List Topic) (acc : Store × List ℕ),
        is_project_analyzed acc.1 id = true → id ∉ acc.2 →
        id ∉ (ts.foldl scanStep acc).2 by
      exact H ts (s, []) h (by simp)
    intro ts
    induction ts with
    | nil =>
      intro acc h1 h2
      simpa using h2
    | cons t ts ih =>
      intro acc h1 h2
      rw [List.foldl_cons]
      refine ih (scanStep acc t) ?_ ?_
      · simp only [scanStep]
        by_cases hd : is_project_analyzed acc.1 t.topic_id = true
        · rw [if_pos hd]
          exact h1
        · rw [if_neg hd]
          exact analyzed_process _ _ _ _ _ h1
      · simp only [scanStep]
        by_cases hd : is_project_analyzed acc.1 t.topic_id = true
        · rw [if_pos hd]
          exact h2
        · rw [if_neg hd]
          intro hmem
          rcases List.mem_append.mp hmem with hm | hm
          · exact h2 hm
          · have hid : id = t.topic_id := by simpa using hm
            exact hd (by rw [← hid]; exact h1)
  · intro s l t
    by_cases hd : is_project_analyzed s t.topic_id = true
    · simp only [scanStep]
      rw [if_pos hd, if_pos hd]
    · simp only [scanStep]
      rw [if_neg hd, if_neg hd]

/-- A record already analyzed, with id 7 and a promising score. -/
def projW : Project := { topic_id := 7, final_score := 80 }

/-- A store already holding the record with id 7. -/
def storeW : Store := ⟨[mkRow projW], []⟩

/-- A listing-page topic with the already-stored id 7. -/
def topicW : Topic := ⟨7, none, {}⟩

/-- C8 witness: scanning a listing that rediscovers the stored id 7 never
invokes the pipeline for it. -/
theorem C8_dedup_witness : 7 ∉ (scan_topics storeW [topicW]).2 :=
  C8_dedup.1 storeW [topicW] 7 (by decide)

/-- Is `is_promising` consistent with the stored score on one row? -/
def rowConsistent (x : StoredRow) : Bool :=
  x.is_promising == decide (75 ≤ x.project.final_score)

/-- Does every stored record satisfy `isPromising ⇔ finalScore ≥ 75`? -/
def StoreInvB (s : Store) : Bool := s.projects.all rowConsistent

lemma all_upsert (rows : List StoredRow) (r : StoredRow)
    (hr : rowConsistent r = true) (h : rows.all rowConsistent = true) :
    (upsertRows rows r).all rowConsistent = true := by
  unfold upsertRows
  by_cases hkey : rows.any (fun y => y.project.topic_id == r.project.topic_id) = true
  · rw [if_pos hkey]
    apply List.all_eq_true.mpr
    intro x hx
    obtain ⟨y, hy, hyx⟩ := List.mem_map.mp hx
    by_cases hys : y.project.topic_id = r.project.topic_id
    · rw [← hyx]
      simpa [hys] using hr
    · rw [← hyx]
      simpa [hys] using List.all_eq_true.mp h y hy
  · rw [if_neg hkey, List.all_append]
    simp [h, hr]

/-- C9: every row written by `save_project` carries
`is_promising = (final_score ≥ 75)`, the property is preserved by any
upsert, and it holds of every stored record after any sequence of upserts
starting from the freshly initialised database. -/
theorem C9_promising :
    (∀ p : Project, rowConsistent (mkRow p) = true)
    ∧ (∀ (s : Store) (p : Project), StoreInvB s = true → StoreInvB (save_project s p) = true)
    ∧ (∀ ps : List Project, StoreInvB (ps.foldl save_project initStore) = true) := by
  have hrow : ∀ p : Project, rowConsistent (mkRow p) = true := by
    intro p
    simp [rowConsistent, mkRow]
  have hsave : ∀ (s : Store) (p : Project),
      StoreInvB s = true → StoreInvB (save_project s p) = true := by
    intro s p h
    exact all_upsert s.projects (mkRow p) (hrow p) h
  refine ⟨hrow, hsave, ?_⟩
  suffices H : ∀ (ps : List Project) (s : Store),
      StoreInvB s = true → StoreInvB (ps.foldl save_project s) = true by
    intro ps
    exact H ps initStore (by decide)
  intro ps
  induction ps with
  | nil =>
    intro s h
    simpa using h
  | cons p ps ih =>
    intro s h
    rw [List.foldl_cons]
    exact ih _ (hsave s p h)

/-- C9 witness: upserting the score-80 record into a consistent store keeps
every stored row consistent. -/
theorem C9_promising_witness : StoreInvB (save_project storeW projW) = true :=
  C9_promising.2.1 storeW projW (by decide)

/-- C10: whenever the premine string contains `'%'` but its remainder does
not parse as a float, the scorer still returns normally with the penalty
simply skipped (same score as with the default `"0%"`), while
`process_announcement` hits the unguarded `float()` conversion, whose
exception is caught at item granularity: the store is left unchanged and no
record is persisted. -/
theorem C10_unguarded_premine :
    ∀ (s : Store) (id : ℕ) (page : Page) (a : AnalysisResult) (hw hg : Bool),
      containsPct (a.premine_analysis.getD "0%") = true →
      parseDecimal? (stripPct (a.premine_analysis.getD "0%")) = none →
      premine_malus (a.premine_analysis.getD "0%") = 0 ∧
      calculate_final_score a hw hg =
        calculate_final_score { a with premine_analysis := some "0%" } hw hg ∧
      process_announcement s id (some page) a = s := by
  intro s id page a hw hg h1 h2
  have hmal : premine_malus (a.premine_analysis.getD "0%") = 0 := by
    unfold premine_malus
    rw [if_pos h1, h2]
  have hmal0 : premine_malus "0%" = 0 := by decide
  have key : ∀ (b : AnalysisResult),
      premine_malus (b.premine_analysis.getD "0%") = 0 →
      calculate_final_score b hw hg =
        max 0 (min 100 (ratTrunc
          (b.innovation_score.getD 0 * (35 / 100) +
           b.technical_score.getD 0 * (30 / 100) +
           b.disruptiveness_score.getD 0 * (25 / 100) +
           ((if hw then 5 else 0) + (if hg then 5 else 0) +
            (if b.is_fork.getD false then 0 else 10) + 0)))) := by
    intro b hb
    unfold calculate_final_score
    rw [hb]
  refine ⟨hmal, ?_, ?_⟩
  · rw [key a hmal, key { a with premine_analysis := some "0%" } hmal0]
  · unfold process_announcement
    simp [h1, h2]

/-- Classification answer whose premine field contains `'%'` but whose
remainder `unknown` is not a valid decimal. -/
def aU : AnalysisResult := { premine_analysis := some "unknown%" }

/-- C10 witness: with premine `"unknown%"` the penalty is skipped, the score
matches the default-premine score, and processing leaves the store
untouched. -/
theorem C10_witness :
    premine_malus (aU.premine_analysis.getD "0%") = 0 ∧
    calculate_final_score aU false false =
      calculate_final_score { aU with premine_analysis := some "0%" } false false ∧
    process_announcement storeW 9 (some pageEx) aU = storeW :=
  C10_unguarded_premine storeW 9 pageEx aU false false (by decide) (by decide)

end Bitcointalk
